import Mathlib

/-!
Verification of the Repository-Mapper reference scanner.

The Python sources are embedded shallowly:

* a filesystem path is a list of components of a canonical absolute path
  (`PathT`); `Path.resolve()` becomes `canon`, which drops empty and `"."`
  components and lets `".."` pop the last component (symlinks are not
  modelled);
* a filesystem is the set of regular files it contains (`FS`);
* `scanner/resolver.py` becomes `resolve_candidate_path` over that model;
* `graph/model.py` becomes `ReferenceGraph`, with Python's
  insertion-ordered `dict`/`set` rendered as association lists with
  append-if-new insertion;
* `scanner/parser.py`'s extraction heuristics and `scanner/builder.py`'s
  assembly loop become pure functions over a generic document tree `Doc`;
* `exporters/ascii_exporter.py`'s cycle-aware renderer becomes
  `renderNode`/`renderChildren`, total by well-founded recursion.
-/

/-! ## Paths and canonicalization -/

/-- A canonical absolute path, as its list of components
(`/data/x.json` is `["data", "x.json"]`). -/
abbrev PathT := List String

/-- One step of `Path.resolve()`: empty and `"."` components vanish,
`".."` removes the last accumulated component (staying at the root when
there is none), anything else is appended. -/
def canonStep (acc : List String) (c : String) : List String :=
  if c = "" ∨ c = "." then acc
  else if c = ".." then acc.dropLast
  else acc ++ [c]

/-- `Path.resolve()` without symlinks: canonicalize a component list. -/
def canon (p : List String) : List String := p.foldl canonStep []

/-- `_is_within_repo` (resolver.py): `path.resolve().relative_to(root.resolve())`
succeeds exactly when the canonical root is a component-wise prefix of the
canonical path. -/
def isWithin (path root : PathT) : Bool := (canon root).isPrefixOf (canon path)

/-- A filesystem: the finite set of canonical absolute paths that are
regular files. -/
structure FS where
  files : List PathT

/-- `Path.is_file()` in the model. -/
def FS.isFile (fs : FS) (p : PathT) : Bool := p ∈ fs.files

/-- `PurePath.parents`: every proper ancestor of a path, nearest first,
ending with the root `[]`; the root itself has no parents. -/
def parentsOf (p : PathT) : List PathT :=
  match p with
  | [] => []
  | _ :: _ => p.dropLast.inits.reverse

/-- `str.replace("\\", "/")`: turn every backslash into a forward slash. -/
def normalizeSlashes (s : String) : String :=
  String.mk (s.data.map (fun c => if c = '\\' then '/' else c))

/-- `str.lstrip("/")`: drop every leading slash. -/
def stripLeadingSlashes (s : String) : String :=
  String.mk (s.data.dropWhile (· = '/'))

/-- `PurePosixPath.is_absolute()`: the string starts with a slash. -/
def isAbsoluteStr (s : String) : Bool :=
  match s.data with
  | c :: _ => c = '/'
  | [] => false

/-- Helper for `splitPath`: split the remaining characters on `/`,
`cur` holding the reversed characters of the component being read. -/
def splitPathAux (cur : List Char) : List Char → List String
  | [] => [String.mk cur.reverse]
  | c :: rest =>
    if c = '/' then String.mk cur.reverse :: splitPathAux [] rest
    else splitPathAux (c :: cur) rest

/-- Split a path string on `/` into components (Python `Path(s).parts`
for a relative string; empty components are later erased by `canon`). -/
def splitPath (s : String) : List String := splitPathAux [] s.data

/-! ## scanner/resolver.py -/

/-- One existence-and-containment attempt of `resolve_candidate_path`:
resolve `base / cand` and accept it only if it is a regular file inside
the repository root. -/
def stratAttempt (fs : FS) (root : PathT) (base : PathT) (cand : List String) :
    Option PathT :=
  let r := canon (base ++ cand)
  if fs.isFile r ∧ isWithin r root then some r else none

/-- Strategy 4 of `resolve_candidate_path`: walk the ancestors of the
source directory, stopping (`break`) at the first ancestor outside the
repository root. -/
def tryParents (fs : FS) (root : PathT) (cand : List String) :
    List PathT → Option PathT
  | [] => none
  | p :: rest =>
    if isWithin p root then
      match stratAttempt fs root p cand with
      | some r => some r
      | none => tryParents fs root cand rest
    else none

/-- `resolve_candidate_path(source_file, candidate, root)` (resolver.py):
normalize backslashes, strip leading slashes, then try the source
directory, the repository root, the literal absolute path (guarded by
`candidate_path.is_absolute()`, tested on the *stripped* string), and
finally each ancestor of the source directory. -/
def resolve_candidate_path (fs : FS) (source_file : PathT) (candidate : String)
    (root : PathT) : Option PathT :=
  if candidate = "" then none
  else
    let root' := canon root
    let source_dir := canon source_file.dropLast
    let normalized := normalizeSlashes candidate
    let stripped := stripLeadingSlashes normalized
    let cand := splitPath stripped
    match stratAttempt fs root' source_dir cand with
    | some r => some r
    | none =>
      match stratAttempt fs root' root' cand with
      | some r => some r
      | none =>
        match (if isAbsoluteStr stripped then stratAttempt fs root' [] cand
               else none) with
        | some r => some r
        | none => tryParents fs root' cand (parentsOf source_dir)

/-- The resolver with strategy 3 (the literal-absolute-path attempt)
deleted, for comparison with `resolve_candidate_path`. -/
def resolveWithoutStrat3 (fs : FS) (source_file : PathT) (candidate : String)
    (root : PathT) : Option PathT :=
  if candidate = "" then none
  else
    let root' := canon root
    let source_dir := canon source_file.dropLast
    let normalized := normalizeSlashes candidate
    let stripped := stripLeadingSlashes normalized
    let cand := splitPath stripped
    match stratAttempt fs root' source_dir cand with
    | some r => some r
    | none =>
      match stratAttempt fs root' root' cand with
      | some r => some r
      | none => tryParents fs root' cand (parentsOf source_dir)

/-! ## Basic lemmas about canonicalization and the resolver -/

/-- A component list is clean when it could be the output of `canon`. -/
def cleanComp (c : String) : Prop := c ≠ "" ∧ c ≠ "." ∧ c ≠ ".."

lemma canonStep_clean {acc : List String} {c : String}
    (hacc : ∀ x ∈ acc, cleanComp x) : ∀ x ∈ canonStep acc c, cleanComp x := by
  unfold canonStep
  split
  · exact hacc
  · split
    · intro x hx
      exact hacc x (List.dropLast_subset acc hx)
    · intro x hx
      rcases List.mem_append.1 hx with h | h
      · exact hacc x h
      · rcases List.mem_singleton.1 h with rfl
        rename_i h1 h2
        push_neg at h1
        exact ⟨h1.1, h1.2, h2⟩

lemma canon_clean (p : List String) : ∀ x ∈ canon p, cleanComp x := by
  unfold canon
  suffices h : ∀ acc, (∀ x ∈ acc, cleanComp x) →
      ∀ x ∈ p.foldl canonStep acc, cleanComp x by
    exact h [] (by simp)
  induction p with
  | nil => intro acc hacc; simpa using hacc
  | cons c rest ih =>
    intro acc hacc
    exact ih (canonStep acc c) (canonStep_clean hacc)

lemma foldl_canonStep_clean {p : List String} (hp : ∀ x ∈ p, cleanComp x) :
    ∀ acc, p.foldl canonStep acc = acc ++ p := by
  induction p with
  | nil => intro acc; simp
  | cons c rest ih =>
    intro acc
    have hc : cleanComp c := hp c (by simp)
    have hrest : ∀ x ∈ rest, cleanComp x := fun x hx => hp x (by simp [hx])
    have hstep : canonStep acc c = acc ++ [c] := by
      unfold canonStep
      rw [if_neg, if_neg]
      · exact hc.2.2
      · push_neg
        exact ⟨hc.1, hc.2.1⟩
    simp only [List.foldl_cons, hstep, ih hrest]
    simp

lemma canon_idem (p : List String) : canon (canon p) = canon p := by
  have h := foldl_canonStep_clean (canon_clean p) []
  simpa [canon] using h

lemma isWithin_canon_root (p root : PathT) : isWithin p (canon root) = isWithin p root := by
  simp [isWithin, canon_idem]

lemma stratAttempt_sound {fs : FS} {root base : PathT} {cand : List String}
    {r : PathT} (h : stratAttempt fs root base cand = some r) :
    fs.isFile r = true ∧ isWithin r root = true := by
  simp only [stratAttempt] at h
  split at h
  · rename_i hcond
    cases h
    exact ⟨hcond.1, hcond.2⟩
  · cases h

lemma tryParents_sound {fs : FS} {root : PathT} {cand : List String}
    {ps : List PathT} {r : PathT} (h : tryParents fs root cand ps = some r) :
    fs.isFile r = true ∧ isWithin r root = true := by
  induction ps with
  | nil => simp [tryParents] at h
  | cons p rest ih =>
    unfold tryParents at h
    split at h
    · cases hs : stratAttempt fs root p cand with
      | some r' =>
        rw [hs] at h
        cases h
        exact stratAttempt_sound hs
      | none =>
        rw [hs] at h
        exact ih h
    · cases h

/-- **C1.** Whenever `resolve_candidate_path` returns a path, that path is
a regular file of the scanned filesystem and lies inside the repository
root: its canonical form extends the root's canonical form component-wise.
A candidate never resolves to a file outside the root. -/
theorem resolve_candidate_path_within_repo (fs : FS) (source_file : PathT)
    (candidate : String) (root : PathT) (p : PathT)
    (h : resolve_candidate_path fs source_file candidate root = some p) :
    fs.isFile p = true ∧ isWithin p root = true := by
  unfold resolve_candidate_path at h
  split at h
  · cases h
  · simp only at h
    have conv : ∀ q : PathT, fs.isFile q = true ∧ isWithin q (canon root) = true →
        fs.isFile q = true ∧ isWithin q root = true := by
      intro q hq
      exact ⟨hq.1, by rw [← isWithin_canon_root]; exact hq.2⟩
    cases h1 : stratAttempt fs (canon root) (canon source_file.dropLast)
        (splitPath (stripLeadingSlashes (normalizeSlashes candidate))) with
    | some r =>
      rw [h1] at h
      cases h
      exact conv _ (stratAttempt_sound h1)
    | none =>
      rw [h1] at h
      cases h2 : stratAttempt fs (canon root) (canon root)
          (splitPath (stripLeadingSlashes (normalizeSlashes candidate))) with
      | some r =>
        rw [h2] at h
        cases h
        exact conv _ (stratAttempt_sound h2)
      | none =>
        rw [h2] at h
        cases h3 : (if isAbsoluteStr (stripLeadingSlashes (normalizeSlashes candidate))
            then stratAttempt fs (canon root) []
              (splitPath (stripLeadingSlashes (normalizeSlashes candidate)))
            else none) with
        | some r =>
          rw [h3] at h
          cases h
          split at h3
          · exact conv _ (stratAttempt_sound h3)
          · cases h3
        | none =>
          rw [h3] at h
          exact conv _ (tryParents_sound h)

/-- Witness for `resolve_candidate_path_within_repo`: in a repository
`/repo` holding `a.yaml` and `b.json`, the candidate `"b.json"` found in
`a.yaml` resolves, and the result is a file inside the root. -/
theorem resolve_candidate_path_within_repo_witness :
    FS.isFile ⟨[["repo", "a.yaml"], ["repo", "b.json"]]⟩ ["repo", "b.json"] = true ∧
      isWithin ["repo", "b.json"] ["repo"] = true :=
  resolve_candidate_path_within_repo ⟨[["repo", "a.yaml"], ["repo", "b.json"]]⟩
    ["repo", "a.yaml"] "b.json" ["repo"] ["repo", "b.json"] (by decide)

lemma isAbsoluteStr_stripLeadingSlashes (s : String) :
    isAbsoluteStr (stripLeadingSlashes s) = false := by
  unfold stripLeadingSlashes
  induction s.data with
  | nil => rfl
  | cons c rest ih =>
    by_cases hc : c = '/'
    · simpa [List.dropWhile, hc] using ih
    · simp [List.dropWhile, hc, isAbsoluteStr]

/-- **C5 counterexample.** Repository root `/data`; files `/data/x.json`
and `/data/sub/a.yaml`; candidate `"/data/x.json"` found in
`/data/sub/a.yaml`. The candidate is syntactically absolute before the
leading-slash strip, its literal OS-absolute location `/data/x.json` is a
regular file contained in the root, and strategies 1 and 2 both fail —
yet `resolve_candidate_path` returns `none`, not that literal path:
strategy 3 is tested on the already-stripped string and never fires. -/
theorem resolve_strat3_counterexample :
    isAbsoluteStr (normalizeSlashes "/data/x.json") = true ∧
      FS.isFile ⟨[["data", "x.json"], ["data", "sub", "a.yaml"]]⟩ ["data", "x.json"] = true ∧
      isWithin ["data", "x.json"] ["data"] = true ∧
      stratAttempt ⟨[["data", "x.json"], ["data", "sub", "a.yaml"]]⟩ (canon ["data"])
        (canon (["data", "sub", "a.yaml"] : PathT).dropLast)
        (splitPath (stripLeadingSlashes (normalizeSlashes "/data/x.json"))) = none ∧
      stratAttempt ⟨[["data", "x.json"], ["data", "sub", "a.yaml"]]⟩ (canon ["data"])
        (canon ["data"])
        (splitPath (stripLeadingSlashes (normalizeSlashes "/data/x.json"))) = none ∧
      resolve_candidate_path ⟨[["data", "x.json"], ["data", "sub", "a.yaml"]]⟩
        ["data", "sub", "a.yaml"] "/data/x.json" ["data"] = none := by
  decide

/-- **C5 (amended).** The strategy-3 guard `candidate_path.is_absolute()`
is evaluated only after the leading-slash strip, so it is always false:
`resolve_candidate_path` behaves exactly as if strategy 3 were absent,
and a candidate that was syntactically absolute before the strip is only
ever resolved source-directory-relative, root-relative, or
ancestor-relative (strategies 1, 2 and 4). -/
theorem resolve_candidate_path_strat3_dead (fs : FS) (source_file : PathT)
    (candidate : String) (root : PathT) :
    resolve_candidate_path fs source_file candidate root =
      resolveWithoutStrat3 fs source_file candidate root := by
  unfold resolve_candidate_path resolveWithoutStrat3
  split
  · rfl
  · simp only [isAbsoluteStr_stripLeadingSlashes, Bool.false_eq_true, if_false]

/-! ## graph/model.py -/

/-- Add an element to a Python `set`, modelled as a duplicate-free list
in insertion order: appended only if not already present. -/
def insertNew [DecidableEq α] (xs : List α) (x : α) : List α :=
  if x ∈ xs then xs else xs ++ [x]

/-- Add `v` to the set stored under `k` in a Python `dict` of sets,
modelled as an association list in key-insertion order: a new key is
appended at the end, an existing key keeps its position. -/
def assocAdd [DecidableEq α] : List (PathT × List α) → PathT → α → List (PathT × List α)
  | [], k, v => [(k, [v])]
  | (k', vs) :: rest, k, v =>
    if k' = k then (k', insertNew vs v) :: rest
    else (k', vs) :: assocAdd rest k v

/-- Look a key up in an association list (`dict.get`). -/
def assocFind [DecidableEq α] : List (PathT × List α) → PathT → Option (List α)
  | [], _ => none
  | (k', vs) :: rest, k => if k' = k then some vs else assocFind rest k

/-- `ReferenceGraph` (graph/model.py): nodes, resolved edges, and the
missing / remote / template relations, each a source-keyed dict of sets. -/
structure ReferenceGraph where
  nodes : List PathT
  edges : List (PathT × List PathT)
  missing : List (PathT × List String)
  remote : List (PathT × List String)
  templates : List (PathT × List String)

/-- `ReferenceGraph.__init__`. -/
def ReferenceGraph.empty : ReferenceGraph := ⟨[], [], [], [], []⟩

/-- `ReferenceGraph.add_node`. -/
def ReferenceGraph.add_node (g : ReferenceGraph) (node : PathT) : ReferenceGraph :=
  { g with nodes := insertNew g.nodes node }

/-- `ReferenceGraph.add_edge`: records the edge and inserts both
endpoints into the node set. -/
def ReferenceGraph.add_edge (g : ReferenceGraph) (source target : PathT) :
    ReferenceGraph :=
  { g with
    nodes := insertNew (insertNew g.nodes source) target
    edges := assocAdd g.edges source target }

/-- `ReferenceGraph.add_missing`: records the unresolved string and
inserts the source into the node set. -/
def ReferenceGraph.add_missing (g : ReferenceGraph) (source : PathT)
    (candidate : String) : ReferenceGraph :=
  { g with
    nodes := insertNew g.nodes source
    missing := assocAdd g.missing source candidate }

/-- `ReferenceGraph.add_remote`: records the URL and inserts the source
into the node set. -/
def ReferenceGraph.add_remote (g : ReferenceGraph) (source : PathT)
    (url : String) : ReferenceGraph :=
  { g with
    nodes := insertNew g.nodes source
    remote := assocAdd g.remote source url }

/-- `ReferenceGraph.add_template`: records the template string and
inserts the source into the node set. -/
def ReferenceGraph.add_template (g : ReferenceGraph) (source : PathT)
    (candidate : String) : ReferenceGraph :=
  { g with
    nodes := insertNew g.nodes source
    templates := assocAdd g.templates source candidate }

/-- `ReferenceGraph.get_targets`. -/
def ReferenceGraph.get_targets (g : ReferenceGraph) (source : PathT) : List PathT :=
  (assocFind g.edges source).getD []

/-- `ReferenceGraph.get_missing`. -/
def ReferenceGraph.get_missing (g : ReferenceGraph) (source : PathT) : List String :=
  (assocFind g.missing source).getD []

/-- `ReferenceGraph.get_remote`. -/
def ReferenceGraph.get_remote (g : ReferenceGraph) (source : PathT) : List String :=
  (assocFind g.remote source).getD []

/-- `ReferenceGraph.get_templates`. -/
def ReferenceGraph.get_templates (g : ReferenceGraph) (source : PathT) : List String :=
  (assocFind g.templates source).getD []

/-- One graph mutation, so that "any sequence of operations" can be
quantified over. -/
inductive GraphOp where
  | addNode (node : PathT)
  | addEdge (source target : PathT)
  | addMissing (source : PathT) (candidate : String)
  | addRemote (source : PathT) (url : String)
  | addTemplate (source : PathT) (candidate : String)

/-- Apply one mutation to a graph. -/
def applyOp (g : ReferenceGraph) : GraphOp → ReferenceGraph
  | .addNode n => g.add_node n
  | .addEdge s t => g.add_edge s t
  | .addMissing s c => g.add_missing s c
  | .addRemote s u => g.add_remote s u
  | .addTemplate s c => g.add_template s c

/-- The graph produced by a sequence of mutations on the empty graph. -/
def buildOps (ops : List GraphOp) : ReferenceGraph :=
  ops.foldl applyOp ReferenceGraph.empty

/-- Both endpoints of every recorded resolved edge are members of the
node set. -/
def edgeInvariant (g : ReferenceGraph) : Prop :=
  ∀ s ts, (s, ts) ∈ g.edges → s ∈ g.nodes ∧ ∀ t ∈ ts, t ∈ g.nodes

/-- Every source of a missing / remote / template relation is a member
of the node set. -/
def relSourceInvariant (g : ReferenceGraph) : Prop :=
  (∀ s cs, (s, cs) ∈ g.missing → s ∈ g.nodes) ∧
    (∀ s cs, (s, cs) ∈ g.remote → s ∈ g.nodes) ∧
    (∀ s cs, (s, cs) ∈ g.templates → s ∈ g.nodes)

lemma mem_insertNew [DecidableEq α] {xs : List α} {x y : α} :
    y ∈ insertNew xs x ↔ y ∈ xs ∨ y = x := by
  unfold insertNew
  split
  · rename_i hx
    constructor
    · exact fun h => Or.inl h
    · rintro (h | rfl)
      · exact h
      · exact hx
  · simp

lemma mem_assocAdd [DecidableEq α] {m : List (PathT × List α)} {k : PathT}
    {v : α} {s : PathT} {ts : List α} (h : (s, ts) ∈ assocAdd m k v) :
    (s, ts) ∈ m ∨ (s = k ∧ (ts = [v] ∨ ∃ ts', (k, ts') ∈ m ∧ ts = insertNew ts' v)) := by
  induction m with
  | nil =>
    simp only [assocAdd, List.mem_singleton, Prod.mk.injEq] at h
    exact Or.inr ⟨h.1, Or.inl h.2⟩
  | cons hd rest ih =>
    obtain ⟨k', vs⟩ := hd
    simp only [assocAdd] at h
    split at h
    · rename_i hk
      rcases List.mem_cons.1 h with heq | hmem
      · rcases Prod.mk.injEq .. ▸ heq with ⟨h1, h2⟩
        subst hk
        exact Or.inr ⟨h1, Or.inr ⟨vs, List.mem_cons_self .., h2⟩⟩
      · exact Or.inl (List.mem_cons_of_mem _ hmem)
    · rcases List.mem_cons.1 h with heq | hmem
      · exact Or.inl (heq ▸ List.mem_cons_self ..)
      · rcases ih hmem with h' | ⟨h1, h2 | ⟨ts', h3, h4⟩⟩
        · exact Or.inl (List.mem_cons_of_mem _ h')
        · exact Or.inr ⟨h1, Or.inl h2⟩
        · exact Or.inr ⟨h1, Or.inr ⟨ts', List.mem_cons_of_mem _ h3, h4⟩⟩

lemma nodes_mono_applyOp {g : ReferenceGraph} {y : PathT} (op : GraphOp)
    (h : y ∈ g.nodes) : y ∈ (applyOp g op).nodes := by
  cases op <;>
    simp only [applyOp, ReferenceGraph.add_node, ReferenceGraph.add_edge,
      ReferenceGraph.add_missing, ReferenceGraph.add_remote,
      ReferenceGraph.add_template, mem_insertNew] <;> tauto

lemma edgeInvariant_applyOp {g : ReferenceGraph} (op : GraphOp)
    (hg : edgeInvariant g) : edgeInvariant (applyOp g op) := by
  cases op with
  | addEdge s t =>
    intro s' ts' hmem
    simp only [applyOp, ReferenceGraph.add_edge] at hmem ⊢
    have hnodes : ∀ y, y ∈ g.nodes ∨ y = s ∨ y = t →
        y ∈ insertNew (insertNew g.nodes s) t := by
      intro y hy
      rw [mem_insertNew, mem_insertNew]
      tauto
    rcases mem_assocAdd hmem with h' | ⟨rfl, h2 | ⟨ts'', h3, h4⟩⟩
    · obtain ⟨h1, h2⟩ := hg s' ts' h'
      exact ⟨hnodes _ (Or.inl h1), fun x hx => hnodes _ (Or.inl (h2 x hx))⟩
    · subst h2
      exact ⟨hnodes _ (Or.inr (Or.inl rfl)),
        fun x hx => hnodes _ (Or.inr (Or.inr (List.mem_singleton.1 hx)))⟩
    · subst h4
      obtain ⟨h1, h2⟩ := hg s' ts'' h3
      refine ⟨hnodes _ (Or.inl h1), fun x hx => ?_⟩
      rcases mem_insertNew.1 hx with hx' | rfl
      · exact hnodes _ (Or.inl (h2 x hx'))
      · exact hnodes _ (Or.inr (Or.inr rfl))
  | addNode n =>
    intro s' ts' hmem
    simp only [applyOp, ReferenceGraph.add_node] at hmem ⊢
    obtain ⟨h1, h2⟩ := hg s' ts' hmem
    exact ⟨mem_insertNew.2 (Or.inl h1), fun x hx => mem_insertNew.2 (Or.inl (h2 x hx))⟩
  | addMissing s c =>
    intro s' ts' hmem
    simp only [applyOp, ReferenceGraph.add_missing] at hmem ⊢
    obtain ⟨h1, h2⟩ := hg s' ts' hmem
    exact ⟨mem_insertNew.2 (Or.inl h1), fun x hx => mem_insertNew.2 (Or.inl (h2 x hx))⟩
  | addRemote s u =>
    intro s' ts' hmem
    simp only [applyOp, ReferenceGraph.add_remote] at hmem ⊢
    obtain ⟨h1, h2⟩ := hg s' ts' hmem
    exact ⟨mem_insertNew.2 (Or.inl h1), fun x hx => mem_insertNew.2 (Or.inl (h2 x hx))⟩
  | addTemplate s c =>
    intro s' ts' hmem
    simp only [applyOp, ReferenceGraph.add_template] at hmem ⊢
    obtain ⟨h1, h2⟩ := hg s' ts' hmem
    exact ⟨mem_insertNew.2 (Or.inl h1), fun x hx => mem_insertNew.2 (Or.inl (h2 x hx))⟩

/-- **C2.** Every graph mutation preserves the no-dangling-edge
invariant, and therefore every graph built by any sequence of
`add_node`/`add_edge` (and the other relation) operations has both
endpoints of every resolved edge in its node set. -/
theorem referenceGraph_edge_endpoints_in_nodes :
    (∀ g op, edgeInvariant g → edgeInvariant (applyOp g op)) ∧
      ∀ ops : List GraphOp, edgeInvariant (buildOps ops) := by
  refine ⟨fun g op hg => edgeInvariant_applyOp op hg, fun ops => ?_⟩
  suffices h : ∀ g, edgeInvariant g → edgeInvariant (ops.foldl applyOp g) by
    refine h ReferenceGraph.empty ?_
    intro s ts hmem
    simp [ReferenceGraph.empty] at hmem
  induction ops with
  | nil => exact fun g hg => hg
  | cons op rest ih =>
    intro g hg
    exact ih (applyOp g op) (edgeInvariant_applyOp op hg)

/-- Witness for `referenceGraph_edge_endpoints_in_nodes`: adding the
edge `/a → /b` to the empty graph keeps the invariant. -/
theorem referenceGraph_edge_endpoints_in_nodes_witness :
    edgeInvariant (applyOp ReferenceGraph.empty (GraphOp.addEdge ["a"] ["b"])) :=
  referenceGraph_edge_endpoints_in_nodes.1 ReferenceGraph.empty
    (GraphOp.addEdge ["a"] ["b"])
    (fun s ts hmem => by simp [ReferenceGraph.empty] at hmem)

/-- Keys of `assocAdd m k v` are the old keys plus possibly `k`. -/
lemma mem_assocAdd_key [DecidableEq α] {m : List (PathT × List α)} {k : PathT}
    {v : α} {s : PathT} {ts : List α} (h : (s, ts) ∈ assocAdd m k v) :
    (∃ ts', (s, ts') ∈ m) ∨ s = k := by
  rcases mem_assocAdd h with h' | ⟨h1, _⟩
  · exact Or.inl ⟨ts, h'⟩
  · exact Or.inr h1

lemma relSourceInvariant_applyOp {g : ReferenceGraph} (op : GraphOp)
    (hg : relSourceInvariant g) : relSourceInvariant (applyOp g op) := by
  obtain ⟨hm, hr, ht⟩ := hg
  cases op with
  | addNode n =>
    simp only [applyOp, ReferenceGraph.add_node, relSourceInvariant]
    exact ⟨fun s cs h => mem_insertNew.2 (Or.inl (hm s cs h)),
      fun s cs h => mem_insertNew.2 (Or.inl (hr s cs h)),
      fun s cs h => mem_insertNew.2 (Or.inl (ht s cs h))⟩
  | addEdge s t =>
    simp only [applyOp, ReferenceGraph.add_edge, relSourceInvariant]
    exact ⟨fun s' cs h => mem_insertNew.2 (Or.inl (mem_insertNew.2 (Or.inl (hm s' cs h)))),
      fun s' cs h => mem_insertNew.2 (Or.inl (mem_insertNew.2 (Or.inl (hr s' cs h)))),
      fun s' cs h => mem_insertNew.2 (Or.inl (mem_insertNew.2 (Or.inl (ht s' cs h))))⟩
  | addMissing s c =>
    simp only [applyOp, ReferenceGraph.add_missing, relSourceInvariant]
    refine ⟨fun s' cs h => ?_,
      fun s' cs h => mem_insertNew.2 (Or.inl (hr s' cs h)),
      fun s' cs h => mem_insertNew.2 (Or.inl (ht s' cs h))⟩
    rcases mem_assocAdd_key h with ⟨ts', h'⟩ | rfl
    · exact mem_insertNew.2 (Or.inl (hm s' ts' h'))
    · exact mem_insertNew.2 (Or.inr rfl)
  | addRemote s u =>
    simp only [applyOp, ReferenceGraph.add_remote, relSourceInvariant]
    refine ⟨fun s' cs h => mem_insertNew.2 (Or.inl (hm s' cs h)),
      fun s' cs h => ?_,
      fun s' cs h => mem_insertNew.2 (Or.inl (ht s' cs h))⟩
    rcases mem_assocAdd_key h with ⟨ts', h'⟩ | rfl
    · exact mem_insertNew.2 (Or.inl (hr s' ts' h'))
    · exact mem_insertNew.2 (Or.inr rfl)
  | addTemplate s c =>
    simp only [applyOp, ReferenceGraph.add_template, relSourceInvariant]
    refine ⟨fun s' cs h => mem_insertNew.2 (Or.inl (hm s' cs h)),
      fun s' cs h => mem_insertNew.2 (Or.inl (hr s' cs h)),
      fun s' cs h => ?_⟩
    rcases mem_assocAdd_key h with ⟨ts', h'⟩ | rfl
    · exact mem_insertNew.2 (Or.inl (ht s' ts' h'))
    · exact mem_insertNew.2 (Or.inr rfl)

/-- **C10.** `add_missing`, `add_remote` and `add_template` each insert
the source as a node, so in every graph built by any sequence of
operations, every source of a missing / remote / template relation is a
member of the node set — relation sources can never dangle. -/
theorem referenceGraph_relation_sources_in_nodes :
    (∀ g op, relSourceInvariant g → relSourceInvariant (applyOp g op)) ∧
      ∀ ops : List GraphOp, relSourceInvariant (buildOps ops) := by
  refine ⟨fun g op hg => relSourceInvariant_applyOp op hg, fun ops => ?_⟩
  suffices h : ∀ g, relSourceInvariant g → relSourceInvariant (ops.foldl applyOp g) by
    refine h ReferenceGraph.empty ?_
    refine ⟨fun s cs h => ?_, fun s cs h => ?_, fun s cs h => ?_⟩ <;>
      simp [ReferenceGraph.empty] at h
  induction ops with
  | nil => exact fun g hg => hg
  | cons op rest ih =>
    intro g hg
    exact ih (applyOp g op) (relSourceInvariant_applyOp op hg)

/-- Witness for `referenceGraph_relation_sources_in_nodes`: recording a
missing reference in the empty graph keeps the invariant. -/
theorem referenceGraph_relation_sources_in_nodes_witness :
    relSourceInvariant (applyOp ReferenceGraph.empty (GraphOp.addMissing ["a"] "x.json")) :=
  referenceGraph_relation_sources_in_nodes.1 ReferenceGraph.empty
    (GraphOp.addMissing ["a"] "x.json")
    ⟨fun s cs h => by simp [ReferenceGraph.empty] at h,
      fun s cs h => by simp [ReferenceGraph.empty] at h,
      fun s cs h => by simp [ReferenceGraph.empty] at h⟩


/-! ## Iteration order of the graph (model.py `iter_*`) -/

/-- Python `<` on characters: by code point. -/
def charLt (a b : Char) : Bool := decide (a.toNat < b.toNat)

/-- Python `<` on strings (as character lists): lexicographic by code
point, a proper prefix being smaller. -/
def lexLt : List Char → List Char → Bool
  | [], [] => false
  | [], _ :: _ => true
  | _ :: _, [] => false
  | a :: as, b :: bs =>
    if charLt a b then true
    else if charLt b a then false
    else lexLt as bs

/-- Python `<=` on strings (as character lists). -/
def lexLe : List Char → List Char → Bool
  | [], _ => true
  | _ :: _, [] => false
  | a :: as, b :: bs =>
    if charLt a b then true
    else if charLt b a then false
    else lexLe as bs

/-- Python `<` on strings. -/
def strLt (a b : String) : Bool := lexLt a.data b.data

/-- Python `<=` on strings. -/
def strLe (a b : String) : Bool := lexLe a.data b.data

/-- `str(Path)`: the display string of a canonical absolute path. -/
def pathStr (p : PathT) : String :=
  String.mk ('/' :: ((p.map String.data).intersperse ['/']).flatten)

/-- `sorted` comparison on `Path` values: by the path string
(`PurePath.__lt__` compares the slash-joined string). -/
def pathLe (a b : PathT) : Bool := strLe (pathStr a) (pathStr b)

/-- Insert `x` into `l` before the first element it is `le`-below
(insertion step of a stable insertion sort). -/
def insertLe (le : α → α → Bool) (x : α) : List α → List α
  | [] => [x]
  | y :: ys => if le x y then x :: y :: ys else y :: insertLe le x ys

/-- Python `sorted`: stable ascending sort. -/
def sortLe (le : α → α → Bool) (l : List α) : List α :=
  l.foldr (insertLe le) []

/-- `sorted(targets)` over `Path` values. -/
def sortTargets (ts : List PathT) : List PathT := sortLe pathLe ts

/-- `sorted(strings)`. -/
def sortStrs (ss : List String) : List String := sortLe strLe ss

/-- The common shape of the four iterators: walk the source-keyed dict
in key-insertion order and sort each per-source set before yielding. -/
def iterAssoc (sortFn : List α → List α) (m : List (PathT × List α)) :
    List (PathT × α) :=
  m.flatMap (fun p => (sortFn p.2).map (fun v => (p.1, v)))

/-- `ReferenceGraph.iter_edges`. -/
def ReferenceGraph.iter_edges (g : ReferenceGraph) : List (PathT × PathT) :=
  iterAssoc sortTargets g.edges

/-- `ReferenceGraph.iter_missing`. -/
def ReferenceGraph.iter_missing (g : ReferenceGraph) : List (PathT × String) :=
  iterAssoc sortStrs g.missing

/-- `ReferenceGraph.iter_remote`. -/
def ReferenceGraph.iter_remote (g : ReferenceGraph) : List (PathT × String) :=
  iterAssoc sortStrs g.remote

/-- `ReferenceGraph.iter_templates`. -/
def ReferenceGraph.iter_templates (g : ReferenceGraph) : List (PathT × String) :=
  iterAssoc sortStrs g.templates

/-- Ascending lexical order on yielded edge pairs: by source, then by
target. -/
def edgePairLe (x y : PathT × PathT) : Bool :=
  strLt (pathStr x.1) (pathStr y.1) ||
    (pathStr x.1 = pathStr y.1 && pathLe x.2 y.2)

/-- Ascending lexical order on yielded relation pairs: by source, then
by the relation string. -/
def relPairLe (x y : PathT × String) : Bool :=
  strLt (pathStr x.1) (pathStr y.1) ||
    (pathStr x.1 = pathStr y.1 && strLe x.2 y.2)

/-- Does the first element fit before the rest of an ascending list? -/
def headLe (le : α → α → Bool) (a : α) : List α → Bool
  | [] => true
  | b :: _ => le a b

/-- The list ascends under `le`. -/
def chainLe (le : α → α → Bool) : List α → Bool
  | [] => true
  | a :: rest => headLe le a rest && chainLe le rest

/-- **C4 counterexample.** Insert an edge from `/b` first and one from
`/a` second: `iter_edges` yields the `/b` pair before the `/a` pair, so
the iterators do not yield in ascending lexical order of (source, then
target) — sources come out in dict insertion order, unsorted. -/
theorem iter_edges_order_counterexample :
    (buildOps [GraphOp.addEdge ["b"] ["x"], GraphOp.addEdge ["a"] ["y"]]).iter_edges =
        [(["b"], ["x"]), (["a"], ["y"])] ∧
      chainLe edgePairLe
        (buildOps [GraphOp.addEdge ["b"] ["x"], GraphOp.addEdge ["a"] ["y"]]).iter_edges =
        false ∧
      chainLe relPairLe
        (buildOps [GraphOp.addMissing ["b"] "m.json",
          GraphOp.addMissing ["a"] "n.json"]).iter_missing = false := by
  refine ⟨rfl, rfl, rfl⟩

lemma lexLe_total : ∀ a b : List Char, lexLe a b = true ∨ lexLe b a = true := by
  intro a
  induction a with
  | nil => intro b; exact Or.inl rfl
  | cons c cs ih =>
    intro b
    cases b with
    | nil => exact Or.inr rfl
    | cons d ds =>
      by_cases h1 : charLt c d = true
      · left
        simp [lexLe, h1]
      · by_cases h2 : charLt d c = true
        · right
          simp [lexLe, h2]
        · rcases ih ds with h | h
          · left
            simp [lexLe, h1, h2, h]
          · right
            simp [lexLe, h1, h2, h]

lemma strLe_total (a b : String) : strLe a b = true ∨ strLe b a = true :=
  lexLe_total a.data b.data

lemma pathLe_total (a b : PathT) : pathLe a b = true ∨ pathLe b a = true :=
  strLe_total (pathStr a) (pathStr b)

lemma headLe_insertLe {le : α → α → Bool} {x y : α} {l : List α}
    (hyx : le y x = true) (hhead : headLe le y l = true) :
    headLe le y (insertLe le x l) = true := by
  cases l with
  | nil => simpa [insertLe, headLe]
  | cons z zs =>
    by_cases hxz : le x z = true
    · simpa [insertLe, hxz, headLe]
    · simp only [insertLe, hxz, if_false]
      simpa [headLe] using hhead

lemma chainLe_insertLe {le : α → α → Bool}
    (htot : ∀ a b, le a b = true ∨ le b a = true) (x : α) :
    ∀ l : List α, chainLe le l = true → chainLe le (insertLe le x l) = true := by
  intro l
  induction l with
  | nil => intro _; rfl
  | cons y ys ih =>
    intro h
    simp only [chainLe, Bool.and_eq_true] at h
    obtain ⟨hhead, hchain⟩ := h
    by_cases hxy : le x y = true
    · simp only [insertLe, hxy, if_true, chainLe, Bool.and_eq_true]
      exact ⟨by simpa [headLe] using hxy, hhead, hchain⟩
    · have hyx : le y x = true := by
        rcases htot x y with h' | h'
        · exact absurd h' hxy
        · exact h'
      simp only [insertLe, hxy, if_false, chainLe, Bool.and_eq_true]
      exact ⟨headLe_insertLe hyx hhead, ih hchain⟩

lemma chainLe_sortLe {le : α → α → Bool}
    (htot : ∀ a b, le a b = true ∨ le b a = true) (l : List α) :
    chainLe le (sortLe le l) = true := by
  induction l with
  | nil => rfl
  | cons x rest ih => exact chainLe_insertLe htot x _ ih

/-- All values yielded by an iterator for a given source, in yield
order. -/
def emittedFor (l : List (PathT × α)) (s : PathT) : List α :=
  l.filterMap (fun p => if p.1 = s then some p.2 else none)

lemma iterAssoc_cons {sortFn : List α → List α} {k : PathT} {vs : List α}
    {rest : List (PathT × List α)} :
    iterAssoc sortFn ((k, vs) :: rest) =
      (sortFn vs).map (fun v => (k, v)) ++ iterAssoc sortFn rest := by
  simp [iterAssoc]

lemma emittedFor_nil_of_not_mem {sortFn : List α → List α}
    {m : List (PathT × List α)} {s : PathT} (h : s ∉ m.map Prod.fst) :
    emittedFor (iterAssoc sortFn m) s = [] := by
  induction m with
  | nil => rfl
  | cons hd rest ih =>
    obtain ⟨k, vs⟩ := hd
    simp only [List.map_cons, List.mem_cons, not_or] at h
    obtain ⟨hk, hrest⟩ := h
    rw [emittedFor, iterAssoc_cons, List.filterMap_append, List.filterMap_map]
    have h1 : (sortFn vs).filterMap
        ((fun p : PathT × α => if p.1 = s then some p.2 else none) ∘ fun v => (k, v)) = [] := by
      apply List.filterMap_eq_nil.2
      intro v _
      simp only [Function.comp_apply]
      rw [if_neg (fun hks => hk hks.symm)]
    rw [h1, List.nil_append]
    exact ih hrest

lemma emittedFor_iterAssoc [DecidableEq α] {sortFn : List α → List α}
    {m : List (PathT × List α)} {s : PathT} (hnd : (m.map Prod.fst).Nodup) :
    emittedFor (iterAssoc sortFn m) s =
      (match assocFind m s with
       | some vs => sortFn vs
       | none => []) := by
  induction m with
  | nil => rfl
  | cons hd rest ih =>
    obtain ⟨k, vs⟩ := hd
    simp only [List.map_cons, List.nodup_cons] at hnd
    obtain ⟨hk, hrest⟩ := hnd
    rw [emittedFor, iterAssoc_cons, List.filterMap_append, List.filterMap_map]
    by_cases hks : k = s
    · subst hks
      have h2 : (sortFn vs).filterMap
          ((fun p : PathT × α => if p.1 = k then some p.2 else none) ∘ fun v => (k, v)) =
          sortFn vs := by
        have hfn : ((fun p : PathT × α => if p.1 = k then some p.2 else none) ∘
            fun v => (k, v)) = some := by
          funext v
          simp
        rw [hfn, List.filterMap_some]
      have h3 : (iterAssoc sortFn rest).filterMap
          (fun p : PathT × α => if p.1 = k then some p.2 else none) = [] :=
        emittedFor_nil_of_not_mem hk
      rw [h2, h3, List.append_nil]
      simp [assocFind]
    · have h1 : (sortFn vs).filterMap
          ((fun p : PathT × α => if p.1 = s then some p.2 else none) ∘ fun v => (k, v)) = [] := by
        apply List.filterMap_eq_nil.2
        intro v _
        simp only [Function.comp_apply]
        rw [if_neg hks]
      rw [h1, List.nil_append]
      have := ih hrest
      rw [emittedFor] at this
      rw [this]
      simp [assocFind, hks]

lemma keys_assocAdd [DecidableEq α] (m : List (PathT × List α)) (k : PathT) (v : α) :
    (assocAdd m k v).map Prod.fst =
      if k ∈ m.map Prod.fst then m.map Prod.fst else m.map Prod.fst ++ [k] := by
  induction m with
  | nil => simp [assocAdd]
  | cons hd rest ih =>
    obtain ⟨k', vs⟩ := hd
    by_cases hk : k' = k
    · subst hk
      simp [assocAdd]
    · simp only [assocAdd, if_neg hk, List.map_cons]
      rw [ih]
      by_cases hmem : k ∈ rest.map Prod.fst
      · simp [hmem, Ne.symm hk]
      · simp [hmem, Ne.symm hk]

lemma nodupKeys_assocAdd [DecidableEq α] {m : List (PathT × List α)} {k : PathT}
    {v : α} (h : (m.map Prod.fst).Nodup) : ((assocAdd m k v).map Prod.fst).Nodup := by
  rw [keys_assocAdd]
  split
  · exact h
  · rename_i hk
    simp [List.nodup_append, h, hk]

/-- Every source-keyed dict of the graph has duplicate-free keys. -/
def graphKeysNodup (g : ReferenceGraph) : Prop :=
  (g.edges.map Prod.fst).Nodup ∧ (g.missing.map Prod.fst).Nodup ∧
    (g.remote.map Prod.fst).Nodup ∧ (g.templates.map Prod.fst).Nodup

lemma graphKeysNodup_applyOp {g : ReferenceGraph} (op : GraphOp)
    (hg : graphKeysNodup g) : graphKeysNodup (applyOp g op) := by
  obtain ⟨h1, h2, h3, h4⟩ := hg
  cases op with
  | addNode n => exact ⟨h1, h2, h3, h4⟩
  | addEdge s t => exact ⟨nodupKeys_assocAdd h1, h2, h3, h4⟩
  | addMissing s c => exact ⟨h1, nodupKeys_assocAdd h2, h3, h4⟩
  | addRemote s u => exact ⟨h1, h2, nodupKeys_assocAdd h3, h4⟩
  | addTemplate s c => exact ⟨h1, h2, h3, nodupKeys_assocAdd h4⟩

lemma graphKeysNodup_buildOps (ops : List GraphOp) : graphKeysNodup (buildOps ops) := by
  suffices h : ∀ g, graphKeysNodup g → graphKeysNodup (ops.foldl applyOp g) by
    exact h ReferenceGraph.empty ⟨List.nodup_nil, List.nodup_nil, List.nodup_nil, List.nodup_nil⟩
  induction ops with
  | nil => exact fun g hg => hg
  | cons op rest ih => exact fun g hg => ih (applyOp g op) (graphKeysNodup_applyOp op hg)

lemma chainLe_emittedFor_iterAssoc [DecidableEq α] {le : α → α → Bool}
    (htot : ∀ a b, le a b = true ∨ le b a = true)
    {m : List (PathT × List α)} {s : PathT} (hnd : (m.map Prod.fst).Nodup) :
    chainLe le (emittedFor (iterAssoc (sortLe le) m) s) = true := by
  rw [emittedFor_iterAssoc hnd]
  cases hfind : assocFind m s with
  | some vs => exact chainLe_sortLe htot vs
  | none => rfl

/-- **C4 (amended).** The iterators sort only *within* a source: for
every graph built by any sequence of operations, the targets/strings
yielded for each fixed source ascend lexically, but the sources
themselves come out in dict insertion order (see the counterexample),
not in ascending order. -/
theorem iterators_sorted_within_source (ops : List GraphOp) (s : PathT) :
    chainLe pathLe (emittedFor (buildOps ops).iter_edges s) = true ∧
      chainLe strLe (emittedFor (buildOps ops).iter_missing s) = true ∧
      chainLe strLe (emittedFor (buildOps ops).iter_remote s) = true ∧
      chainLe strLe (emittedFor (buildOps ops).iter_templates s) = true := by
  obtain ⟨h1, h2, h3, h4⟩ := graphKeysNodup_buildOps ops
  exact ⟨chainLe_emittedFor_iterAssoc pathLe_total h1,
    chainLe_emittedFor_iterAssoc strLe_total h2,
    chainLe_emittedFor_iterAssoc strLe_total h3,
    chainLe_emittedFor_iterAssoc strLe_total h4⟩

/-! ## scanner/parser.py -/

/-- Is `pat` a contiguous sublist of `l`? -/
def listIsInfixOf [DecidableEq α] (pat : List α) : List α → Bool
  | [] => pat.isEmpty
  | a :: rest => pat.isPrefixOf (a :: rest) || listIsInfixOf pat rest

/-- Python `in` on strings: substring containment. -/
def containsSub (hay pat : String) : Bool := listIsInfixOf pat.data hay.data

/-- Python `str.startswith`. -/
def startsWithStr (s pre : String) : Bool := pre.data.isPrefixOf s.data

/-- Python `str.endswith`. -/
def endsWithStr (s suf : String) : Bool := suf.data.isSuffixOf s.data

/-- ASCII `str.lower` on one character. -/
def charLower (c : Char) : Char :=
  if 65 ≤ c.toNat ∧ c.toNat ≤ 90 then Char.ofNat (c.toNat + 32) else c

/-- ASCII `str.lower`. -/
def lowerStr (s : String) : String := String.mk (s.data.map charLower)

/-- Python whitespace (`str.split()` / `str.strip()` delimiters). -/
def isPySpace (c : Char) : Bool := c ∈ [' ', '\t', '\n', '\r', '\x0b', '\x0c']

/-- Helper for `pySplitWs`: split on whitespace runs, discarding empty
tokens; `cur` holds the reversed characters of the token being read. -/
def splitWsAux (cur : List Char) : List Char → List String
  | [] => if cur.isEmpty then [] else [String.mk cur.reverse]
  | c :: rest =>
    if isPySpace c then
      if cur.isEmpty then splitWsAux [] rest
      else String.mk cur.reverse :: splitWsAux [] rest
    else splitWsAux (c :: cur) rest

/-- Python `str.split()` with no argument: split on whitespace runs. -/
def pySplitWs (s : String) : List String := splitWsAux [] s.data

/-- Python `str.strip()`: trim whitespace from both ends. -/
def pyStrip (s : String) : String :=
  String.mk (((s.data.dropWhile isPySpace).reverse.dropWhile isPySpace).reverse)

/-- Python `str.strip("'\"")`: trim quote characters from both ends. -/
def stripQuotes (s : String) : String :=
  String.mk (((s.data.dropWhile (fun c => c = '\'' ∨ c = '"')).reverse.dropWhile
    (fun c => c = '\'' ∨ c = '"')).reverse)

/-- Python `str.rstrip("/")`. -/
def rstripSlash (s : String) : String :=
  String.mk ((s.data.reverse.dropWhile (· = '/')).reverse)

/-- `s.split("/")[-1]`. -/
def lastComponent (s : String) : String := (splitPath s).getLastD ""

/-- `PATH_KEY_HINTS` (parser.py). -/
def PATH_KEY_HINTS : List String :=
  ["path", "file", "filepath", "filename",
   "import", "include", "source", "src",
   "config", "schema", "template",
   "input", "output", "dir", "directory",
   "extends", "inherits", "base",
   "ref", "reference", "$ref"]

/-- `PATH_COMMANDS` (parser.py). -/
def PATH_COMMANDS : List String :=
  ["chmod", "chown", "chgrp",
   "mv", "cp", "rm", "rmdir", "mkdir", "touch", "ln",
   "cat", "head", "tail", "less", "more", "stat",
   "ls", "dir", "find",
   "tar", "gzip", "gunzip", "zip", "unzip",
   "source", "exec", "bash", "sh", "zsh",
   "python", "python3", "node", "ruby", "perl",
   "sudo", "su"]

/-- `URL_KEY_HINTS` (parser.py). -/
def URL_KEY_HINTS : List String :=
  ["$schema", "schema", "$ref", "ref",
   "url", "uri", "href", "link",
   "homepage", "repository", "source"]

/-- `_is_command_with_path_target` (parser.py): does the string look
like `<cmd> <args...>` for a known file-affecting command, optionally
behind `sudo`/`su` or an absolute interpreter path? -/
def isCommandWithPathTarget (value : String) : Bool :=
  let tokens := pySplitWs value
  match tokens with
  | [] => false
  | t0 :: rest =>
    let first_token := lowerStr t0
    let first_token :=
      if (first_token = "sudo" ∨ first_token = "su") ∧ ¬ rest.isEmpty then
        lowerStr (rest.headD "")
      else first_token
    if first_token ∈ PATH_COMMANDS then ¬ rest.isEmpty
    else if first_token.data.contains '/' then
      let cmd_name := lastComponent (rstripSlash first_token)
      cmd_name ∈ PATH_COMMANDS ∧ ¬ rest.isEmpty
    else false

/-- Python's regex `\w` on ASCII. -/
def isWordChar (c : Char) : Bool :=
  decide (97 ≤ c.toNat ∧ c.toNat ≤ 122) || decide (65 ≤ c.toNat ∧ c.toNat ≤ 90) ||
    decide (48 ≤ c.toNat ∧ c.toNat ≤ 57) || c = '_'

/-- `re.search(r"\.\w{1,10}$", value)`: the string ends in a dot
followed by one to ten word characters. -/
def hasExtension (value : String) : Bool :=
  let rev := value.data.reverse
  let run := rev.takeWhile isWordChar
  decide (1 ≤ run.length) && decide (run.length ≤ 10) &&
    decide ((rev.drop run.length).head? = some '.')

/-- `re.match(r"^[\w./\-_]+\.(ya?ml|json|toml|xml|ini|cfg|conf|config)$", value, re.IGNORECASE)`. -/
def configPattern (value : String) : Bool :=
  let classOk := value.data.all (fun c => isWordChar c || c = '.' || c = '/' || c = '-')
  let low := lowerStr value
  classOk &&
    (["yaml", "yml", "json", "toml", "xml", "ini", "cfg", "conf", "config"].any
      (fun e => endsWithStr low ("." ++ e) && decide (e.data.length + 1 < value.data.length)))

/-- Does the string (ASCII-lowered) start with an HTTP(S) scheme
(`re.match(r"^https?://", value, re.IGNORECASE)`)? -/
def matchesHttp (value : String) : Bool :=
  startsWithStr (lowerStr value) "http://" || startsWithStr (lowerStr value) "https://"

/-- `_is_likely_path` (parser.py). -/
def isLikelyPath (value : String) (aggressive : Bool) : Bool :=
  if value = "" ∨ 500 < value.data.length then false
  else if matchesHttp value then false
  else if (match value.data with
           | c :: _ => decide (c ∈ ['$', '{', '[', '(', '#', '@'])
           | [] => false) then false
  else if value.data.contains '\n' ∨ value.data.contains '\t' then false
  else if isCommandWithPathTarget value then false
  else if aggressive then
    value.data.contains '/' || value.data.contains '\\' ||
      ([".yaml", ".yml", ".json", ".toml", ".xml", ".ini", ".cfg"].any
        (fun e => endsWithStr value e))
  else
    hasExtension value && (value.data.contains '/' || value.data.contains '\\' ||
      configPattern value)

/-- `_clean_path` (parser.py). -/
def cleanPath (value : String) : Option String :=
  if value = "" then none
  else
    let cleaned := stripQuotes (pyStrip value)
    if startsWithStr cleaned "#/" then none
    else
      let cleaned := if startsWithStr cleaned "./" then String.mk (cleaned.data.drop 2)
                     else cleaned
      let cleaned := normalizeSlashes cleaned
      if startsWithStr cleaned "/etc/" ∨ startsWithStr cleaned "/usr/" ∨
          startsWithStr cleaned "/var/" then none
      else if cleaned = "" then none
      else some cleaned

/-- A decoded document: maps with string keys, sequences, string
scalars, and any other scalar (number/bool/null). -/
inductive Doc where
  | str (s : String)
  | map (entries : List (String × Doc))
  | arr (items : List Doc)
  | other

/-- `set.update`: append the members of `b` not already in `a`. -/
def setUnion [DecidableEq α] (a b : List α) : List α := b.foldl insertNew a

mutual
/-- `extract_candidate_paths` (parser.py): collect the set of cleaned
path candidates, propagating the lowered key and the aggressive flag. -/
def extract_candidate_paths : Doc → Option String → Bool → List String
  | .str s, _, aggressive =>
    if isLikelyPath s aggressive then
      match cleanPath s with
      | some cleaned => [cleaned]
      | none => []
    else []
  | .map entries, _, aggressive => extractPathsFromEntries entries aggressive
  | .arr items, current_key, aggressive => extractPathsFromItems items current_key aggressive
  | .other, _, _ => []

/-- The dict branch of `extract_candidate_paths`. -/
def extractPathsFromEntries : List (String × Doc) → Bool → List String
  | [], _ => []
  | (key, value) :: rest, aggressive =>
    let key_lower := lowerStr key
    let is_path_key := PATH_KEY_HINTS.any (fun hint => containsSub key_lower hint)
    setUnion (extract_candidate_paths value (some key_lower) (aggressive || is_path_key))
      (extractPathsFromEntries rest aggressive)

/-- The list branch of `extract_candidate_paths`. -/
def extractPathsFromItems : List Doc → Option String → Bool → List String
  | [], _, _ => []
  | item :: rest, current_key, aggressive =>
    setUnion (extract_candidate_paths item current_key aggressive)
      (extractPathsFromItems rest current_key aggressive)
end

/-- `_is_url` (parser.py). -/
def isUrl (value : String) (current_key : Option String) : Bool :=
  if value = "" ∨ 500 < value.data.length then false
  else if ¬ matchesHttp value then false
  else
    (match current_key with
     | some ck => URL_KEY_HINTS.any (fun hint => containsSub ck hint)
     | none => false) ||
    (let low := lowerStr value
     containsSub low "json-schema.org" || containsSub low "schema." ||
       containsSub low "/schema" || endsWithStr low ".xsd" || endsWithStr low ".dtd")

mutual
/-- `extract_urls` (parser.py). -/
def extract_urls : Doc → Option String → List String
  | .str s, current_key => if isUrl s current_key then [s] else []
  | .map entries, _ => extractUrlsFromEntries entries
  | .arr items, current_key => extractUrlsFromItems items current_key
  | .other, _ => []

/-- The dict branch of `extract_urls`. -/
def extractUrlsFromEntries : List (String × Doc) → List String
  | [] => []
  | (key, value) :: rest =>
    setUnion (extract_urls value (some (lowerStr key))) (extractUrlsFromEntries rest)

/-- The list branch of `extract_urls`. -/
def extractUrlsFromItems : List Doc → Option String → List String
  | [], _ => []
  | item :: rest, current_key =>
    setUnion (extract_urls item current_key) (extractUrlsFromItems rest current_key)
end

/-- `is_template_path` (builder.py): the candidate contains `"\x7b\x7b "` and
contains `" \x7d\x7d"`. -/
def is_template_path (candidate : String) : Bool :=
  containsSub candidate "\x7b\x7b " && containsSub candidate " \x7d\x7d"

/-! ## C6: the template test -/

/-- The spec's reading of the template test: `"\x7b\x7b "` occurs at some
position and `" \x7d\x7d"` occurs at a strictly later position. -/
def orderedTemplate (s : String) : Prop :=
  ∃ i j : ℕ, i < j ∧ "\x7b\x7b ".data.isPrefixOf (s.data.drop i) = true ∧
    " \x7d\x7d".data.isPrefixOf (s.data.drop j) = true

lemma listIsInfixOf_iff_exists_drop [DecidableEq α] (pat : List α) :
    ∀ l : List α, listIsInfixOf pat l = true ↔
      ∃ i : ℕ, pat.isPrefixOf (l.drop i) = true := by
  intro l
  induction l with
  | nil =>
    simp only [listIsInfixOf, List.isEmpty_iff]
    constructor
    · rintro rfl
      exact ⟨0, rfl⟩
    · rintro ⟨i, hi⟩
      cases pat with
      | nil => rfl
      | cons a as => simp [List.isPrefixOf] at hi
  | cons a rest ih =>
    simp only [listIsInfixOf, Bool.or_eq_true]
    constructor
    · rintro (h | h)
      · exact ⟨0, h⟩
      · obtain ⟨i, hi⟩ := ih.1 h
        exact ⟨i + 1, hi⟩
    · rintro ⟨i, hi⟩
      cases i with
      | zero => exact Or.inl hi
      | succ i => exact Or.inr (ih.2 ⟨i, hi⟩)

/-- **C6 counterexample.** For `" \x7d\x7d\x7b\x7b "`, the close marker occurs only
before the open marker, yet `is_template_path` returns `true`: the
code's test is a plain conjunction of two substring containments and
ignores the order the claim demands. -/
theorem is_template_path_order_counterexample :
    is_template_path " \x7d\x7d\x7b\x7b " = true ∧ ¬ orderedTemplate " \x7d\x7d\x7b\x7b " := by
  refine ⟨rfl, ?_⟩
  rintro ⟨i, j, hij, hi, hj⟩
  have hle : (" \x7d\x7d".data).length ≤ ((" \x7d\x7d\x7b\x7b " : String).data.drop j).length :=
    (List.isPrefixOf_iff_prefix.1 hj).length_le
  simp only [List.length_drop, List.length_cons, List.length_nil] at hle
  have hj3 : j ≤ 3 := by omega
  interval_cases j
  · omega
  · exact absurd hj (by decide)
  · exact absurd hj (by decide)
  · exact absurd hj (by decide)

/-- **C6 (amended).** The assembler's template test holds exactly when
`s` contains the substring `"\x7b\x7b "` somewhere and contains the substring
`" \x7d\x7d"` somewhere, in either order: it is a plain conjunction of two
containment tests, with no requirement that the close marker follow the
open marker. -/
theorem is_template_path_iff_both_markers (s : String) :
    is_template_path s = true ↔
      (∃ i : ℕ, "\x7b\x7b ".data.isPrefixOf (s.data.drop i) = true) ∧
        ∃ j : ℕ, " \x7d\x7d".data.isPrefixOf (s.data.drop j) = true := by
  unfold is_template_path containsSub
  rw [Bool.and_eq_true, listIsInfixOf_iff_exists_drop, listIsInfixOf_iff_exists_drop]

/-- **C8.** The command filter suppresses
`{"setup_cmd": "chmod 600 /test/permissions.yaml"}` (no candidate), and
`{"config_path": "config/app.yaml"}` yields exactly the one candidate
`"config/app.yaml"`. -/
theorem extract_candidate_paths_examples :
    extract_candidate_paths
        (.map [("setup_cmd", .str "chmod 600 /test/permissions.yaml")]) none false = [] ∧
      extract_candidate_paths
        (.map [("config_path", .str "config/app.yaml")]) none false = ["config/app.yaml"] := by
  exact ⟨rfl, rfl⟩

/-! ## scanner/builder.py -/

/-- One discovered file together with the result of `parse_file`:
`none` models a decode failure (parse_file returns None). -/
structure ScanEntry where
  path : PathT
  data : Option Doc

/-- The per-candidate body of the `build_graph` loop: resolved to a
different file → edge; resolved to the source itself → dropped; not
resolved → template or missing relation. -/
def processCandidate (fs : FS) (root : PathT) (file_path : PathT)
    (g : ReferenceGraph) (candidate : String) : ReferenceGraph :=
  match resolve_candidate_path fs file_path candidate root with
  | some resolved => if resolved ≠ file_path then g.add_edge file_path resolved else g
  | none =>
    if is_template_path candidate then g.add_template file_path candidate
    else g.add_missing file_path candidate

/-- The per-URL body of the `build_graph` loop: always a remote
relation, plus a template relation when the URL is template-shaped. -/
def processUrl (g : ReferenceGraph) (file_path : PathT) (url : String) :
    ReferenceGraph :=
  let g := g.add_remote file_path url
  if is_template_path url then g.add_template file_path url else g

/-- The `build_graph` loop body for one discovered file: add the node;
on decode failure stop there; otherwise process every extracted
candidate and URL. -/
def buildStep (fs : FS) (root : PathT) (g : ReferenceGraph) (e : ScanEntry) :
    ReferenceGraph :=
  let g := g.add_node e.path
  match e.data with
  | none => g
  | some data =>
    let candidates := extract_candidate_paths data none false
    let g := candidates.foldl (processCandidate fs root e.path) g
    let urls := extract_urls data none
    urls.foldl (fun g url => processUrl g e.path url) g

/-- `build_graph` (builder.py), over the discovered files and their
parse results. -/
def build_graph (fs : FS) (root : PathT) (files : List ScanEntry) :
    ReferenceGraph :=
  files.foldl (buildStep fs (canon root)) ReferenceGraph.empty

lemma assocFind_assocAdd_eq [DecidableEq α] (m : List (PathT × List α))
    (k : PathT) (v : α) :
    assocFind (assocAdd m k v) k = some (insertNew ((assocFind m k).getD []) v) := by
  induction m with
  | nil => simp [assocAdd, assocFind, insertNew]
  | cons hd rest ih =>
    obtain ⟨k', vs⟩ := hd
    by_cases h : k' = k
    · subst h
      simp [assocAdd, assocFind]
    · simp [assocAdd, assocFind, h, ih]

lemma assocFind_assocAdd_ne [DecidableEq α] {m : List (PathT × List α)}
    {k s : PathT} {v : α} (h : k ≠ s) :
    assocFind (assocAdd m k v) s = assocFind m s := by
  induction m with
  | nil => simp [assocAdd, assocFind, h]
  | cons hd rest ih =>
    obtain ⟨k', vs⟩ := hd
    by_cases hk : k' = k
    · subst hk
      simp [assocAdd, assocFind, h]
    · simp [assocAdd, assocFind, hk, ih]

lemma get_missing_add_missing (g : ReferenceGraph) (s : PathT) (c : String)
    (f : PathT) :
    (g.add_missing s c).get_missing f =
      if s = f then insertNew (g.get_missing f) c else g.get_missing f := by
  unfold ReferenceGraph.add_missing ReferenceGraph.get_missing
  by_cases h : s = f
  · subst h
    simp [assocFind_assocAdd_eq]
  · simp [assocFind_assocAdd_ne h, h]

/-- For a fixed scan, a string in `f`'s missing set must be unresolvable
from `f`. -/
def MissingSound (fs : FS) (r : PathT) (f : PathT) (c : String)
    (g : ReferenceGraph) : Prop :=
  c ∈ g.get_missing f → resolve_candidate_path fs f c r = none

lemma missingSound_processCandidate {fs : FS} {r f : PathT} {c : String}
    {g : ReferenceGraph} (p : PathT) (cand : String)
    (hg : MissingSound fs r f c g) :
    MissingSound fs r f c (processCandidate fs r p g cand) := by
  intro hc
  unfold processCandidate at hc
  cases hres : resolve_candidate_path fs p cand r with
  | some resolved =>
    rw [hres] at hc
    dsimp only at hc
    split at hc
    · exact hg hc
    · exact hg hc
  | none =>
    rw [hres] at hc
    dsimp only at hc
    split at hc
    · exact hg hc
    · rw [get_missing_add_missing] at hc
      split at hc
      · rename_i hpf
        rcases mem_insertNew.1 hc with hc' | rfl
        · exact hg hc'
        · rw [← hpf]
          exact hres
      · exact hg hc

lemma missingSound_processUrl {fs : FS} {r f : PathT} {c : String}
    {g : ReferenceGraph} (p : PathT) (url : String)
    (hg : MissingSound fs r f c g) :
    MissingSound fs r f c (processUrl g p url) := by
  unfold processUrl
  split
  · exact fun hc => hg hc
  · exact fun hc => hg hc

lemma missingSound_foldl_processCandidate {fs : FS} {r f : PathT} {c : String}
    (p : PathT) (cands : List String) :
    ∀ g : ReferenceGraph, MissingSound fs r f c g →
      MissingSound fs r f c (cands.foldl (processCandidate fs r p) g) := by
  induction cands with
  | nil => exact fun g hg => hg
  | cons cand rest ih =>
    exact fun g hg => ih _ (missingSound_processCandidate p cand hg)

lemma missingSound_foldl_processUrl {fs : FS} {r f : PathT} {c : String}
    (p : PathT) (urls : List String) :
    ∀ g : ReferenceGraph, MissingSound fs r f c g →
      MissingSound fs r f c (urls.foldl (fun g url => processUrl g p url) g) := by
  induction urls with
  | nil => exact fun g hg => hg
  | cons url rest ih =>
    exact fun g hg => ih _ (missingSound_processUrl p url hg)

lemma missingSound_buildStep {fs : FS} {r f : PathT} {c : String}
    {g : ReferenceGraph} (e : ScanEntry) (hg : MissingSound fs r f c g) :
    MissingSound fs r f c (buildStep fs r g e) := by
  unfold buildStep
  cases e.data with
  | none => exact fun hc => hg hc
  | some data =>
    exact missingSound_foldl_processUrl _ _ _
      (missingSound_foldl_processCandidate _ _ _ (fun hc => hg hc))

lemma missingSound_foldl_buildStep {fs : FS} {r f : PathT} {c : String}
    (files : List ScanEntry) :
    ∀ g : ReferenceGraph, MissingSound fs r f c g →
      MissingSound fs r f c (files.foldl (buildStep fs r) g) := by
  induction files with
  | nil => exact fun g hg => hg
  | cons e rest ih => exact fun g hg => ih _ (missingSound_buildStep e hg)

lemma resolve_canon_root (fs : FS) (f : PathT) (c : String) (root : PathT) :
    resolve_candidate_path fs f c (canon root) = resolve_candidate_path fs f c root := by
  unfold resolve_candidate_path
  rw [canon_idem]

/-- **C3.** In every graph produced by `build_graph`, a string recorded
as missing for a source is unresolvable from that source — so a
candidate that resolved successfully never also appears as a missing
relation for the same source — and a candidate resolving to the source
file itself leaves the graph untouched: no edge, no missing, no
template. -/
theorem build_graph_resolved_never_missing :
    (∀ (fs : FS) (root : PathT) (files : List ScanEntry) (f : PathT) (c : String),
        c ∈ (build_graph fs root files).get_missing f →
          resolve_candidate_path fs f c root = none) ∧
      ∀ (fs : FS) (root f : PathT) (g : ReferenceGraph) (c : String),
        resolve_candidate_path fs f c root = some f →
          processCandidate fs root f g c = g := by
  constructor
  · intro fs root files f c hc
    rw [← resolve_canon_root]
    refine missingSound_foldl_buildStep files ReferenceGraph.empty ?_ hc
    intro hmem
    simp [ReferenceGraph.empty, ReferenceGraph.get_missing, assocFind] at hmem
  · intro fs root f g c hres
    unfold processCandidate
    rw [hres]
    simp

/-- Witness for `build_graph_resolved_never_missing`: a scan of `/r`
containing only `a.json`, whose document references the unresolvable
`nope.json`, records it as missing, and the resolver indeed fails on it;
and the self-referencing candidate `"a.json"` inside `/r/a.json` is
dropped without touching the graph. -/
theorem build_graph_resolved_never_missing_witness :
    resolve_candidate_path ⟨[["r", "a.json"]]⟩ ["r", "a.json"] "nope.json" ["r"] = none ∧
      processCandidate ⟨[["r", "a.json"]]⟩ ["r"] ["r", "a.json"]
        ReferenceGraph.empty "a.json" = ReferenceGraph.empty :=
  ⟨build_graph_resolved_never_missing.1 ⟨[["r", "a.json"]]⟩ ["r"]
      [⟨["r", "a.json"], some (.map [("path", .str "nope.json")])⟩]
      ["r", "a.json"] "nope.json" (by decide),
    build_graph_resolved_never_missing.2 ⟨[["r", "a.json"]]⟩ ["r"]
      ["r", "a.json"] ReferenceGraph.empty "a.json" (by decide)⟩

/-! ## C7: decode failures are recovered locally -/

/-- No resolved edge, missing, remote, or template relation has `f` as
its source. -/
def noRelationsFrom (g : ReferenceGraph) (f : PathT) : Prop :=
  g.get_targets f = [] ∧ g.get_missing f = [] ∧ g.get_remote f = [] ∧
    g.get_templates f = []

lemma nodes_mono_processCandidate {fs : FS} {r p : PathT} {g : ReferenceGraph}
    {x : PathT} (cand : String) (h : x ∈ g.nodes) :
    x ∈ (processCandidate fs r p g cand).nodes := by
  unfold processCandidate
  cases resolve_candidate_path fs p cand r with
  | some resolved =>
    dsimp only
    split
    · simp only [ReferenceGraph.add_edge, mem_insertNew]
      tauto
    · exact h
  | none =>
    dsimp only
    split
    · simp only [ReferenceGraph.add_template, mem_insertNew]
      tauto
    · simp only [ReferenceGraph.add_missing, mem_insertNew]
      tauto

lemma nodes_mono_processUrl {p : PathT} {g : ReferenceGraph} {x : PathT}
    (url : String) (h : x ∈ g.nodes) : x ∈ (processUrl g p url).nodes := by
  unfold processUrl
  dsimp only
  split
  · simp only [ReferenceGraph.add_template, ReferenceGraph.add_remote, mem_insertNew]
    tauto
  · simp only [ReferenceGraph.add_remote, mem_insertNew]
    tauto

lemma nodes_mono_buildStep {fs : FS} {r : PathT} {g : ReferenceGraph} {x : PathT}
    (e : ScanEntry) (h : x ∈ g.nodes) : x ∈ (buildStep fs r g e).nodes := by
  unfold buildStep
  cases e.data with
  | none => simpa [ReferenceGraph.add_node, mem_insertNew] using Or.inl h
  | some data =>
    dsimp only
    have h1 : x ∈ (g.add_node e.path).nodes := by
      simp only [ReferenceGraph.add_node, mem_insertNew]
      exact Or.inl h
    have h2 : ∀ (cands : List String) (g' : ReferenceGraph), x ∈ g'.nodes →
        x ∈ (cands.foldl (processCandidate fs r e.path) g').nodes := by
      intro cands
      induction cands with
      | nil => exact fun g' hg => hg
      | cons cand rest ih =>
        exact fun g' hg => ih _ (nodes_mono_processCandidate cand hg)
    have h3 : ∀ (urls : List String) (g' : ReferenceGraph), x ∈ g'.nodes →
        x ∈ (urls.foldl (fun g' url => processUrl g' e.path url) g').nodes := by
      intro urls
      induction urls with
      | nil => exact fun g' hg => hg
      | cons url rest ih =>
        exact fun g' hg => ih _ (nodes_mono_processUrl url hg)
    exact h3 _ _ (h2 _ _ h1)

lemma self_mem_buildStep {fs : FS} {r : PathT} {g : ReferenceGraph}
    (e : ScanEntry) : e.path ∈ (buildStep fs r g e).nodes := by
  unfold buildStep
  cases e.data with
  | none => simp [ReferenceGraph.add_node, mem_insertNew]
  | some data =>
    dsimp only
    have h1 : e.path ∈ (g.add_node e.path).nodes := by
      simp [ReferenceGraph.add_node, mem_insertNew]
    have h2 : ∀ (cands : List String) (g' : ReferenceGraph), e.path ∈ g'.nodes →
        e.path ∈ (cands.foldl (processCandidate fs r e.path) g').nodes := by
      intro cands
      induction cands with
      | nil => exact fun g' hg => hg
      | cons cand rest ih =>
        exact fun g' hg => ih _ (nodes_mono_processCandidate cand hg)
    have h3 : ∀ (urls : List String) (g' : ReferenceGraph), e.path ∈ g'.nodes →
        e.path ∈ (urls.foldl (fun g' url => processUrl g' e.path url) g').nodes := by
      intro urls
      induction urls with
      | nil => exact fun g' hg => hg
      | cons url rest ih =>
        exact fun g' hg => ih _ (nodes_mono_processUrl url hg)
    exact h3 _ _ (h2 _ _ h1)

lemma mem_nodes_foldl_buildStep {fs : FS} {r : PathT} {x : PathT} :
    ∀ (files : List ScanEntry) (g : ReferenceGraph),
      (ScanEntry.mk x none ∈ files ∨ x ∈ g.nodes) →
      x ∈ (files.foldl (buildStep fs r) g).nodes := by
  intro files
  induction files with
  | nil =>
    intro g h
    rcases h with h | h
    · simp at h
    · exact h
  | cons e rest ih =>
    intro g h
    rcases h with h | h
    · rcases List.mem_cons.1 h with rfl | h'
      · exact ih _ (Or.inr (self_mem_buildStep _))
      · exact ih _ (Or.inl h')
    · exact ih _ (Or.inr (nodes_mono_buildStep e h))

lemma get_targets_add_edge_ne {g : ReferenceGraph} {s t f : PathT} (h : s ≠ f) :
    (g.add_edge s t).get_targets f = g.get_targets f := by
  unfold ReferenceGraph.add_edge ReferenceGraph.get_targets
  dsimp only
  rw [assocFind_assocAdd_ne h]

lemma get_missing_add_missing_ne {g : ReferenceGraph} {s f : PathT} {c : String}
    (h : s ≠ f) : (g.add_missing s c).get_missing f = g.get_missing f := by
  unfold ReferenceGraph.add_missing ReferenceGraph.get_missing
  dsimp only
  rw [assocFind_assocAdd_ne h]

lemma get_remote_add_remote_ne {g : ReferenceGraph} {s f : PathT} {u : String}
    (h : s ≠ f) : (g.add_remote s u).get_remote f = g.get_remote f := by
  unfold ReferenceGraph.add_remote ReferenceGraph.get_remote
  dsimp only
  rw [assocFind_assocAdd_ne h]

lemma get_templates_add_template_ne {g : ReferenceGraph} {s f : PathT}
    {c : String} (h : s ≠ f) :
    (g.add_template s c).get_templates f = g.get_templates f := by
  unfold ReferenceGraph.add_template ReferenceGraph.get_templates
  dsimp only
  rw [assocFind_assocAdd_ne h]

lemma noRel_processCandidate {fs : FS} {r p f : PathT} {g : ReferenceGraph}
    (cand : String) (hne : p ≠ f) (hg : noRelationsFrom g f) :
    noRelationsFrom (processCandidate fs r p g cand) f := by
  obtain ⟨h1, h2, h3, h4⟩ := hg
  unfold processCandidate
  cases resolve_candidate_path fs p cand r with
  | some resolved =>
    dsimp only
    split
    · exact ⟨by rw [get_targets_add_edge_ne hne]; exact h1, h2, h3, h4⟩
    · exact ⟨h1, h2, h3, h4⟩
  | none =>
    dsimp only
    split
    · exact ⟨h1, h2, h3, by rw [get_templates_add_template_ne hne]; exact h4⟩
    · exact ⟨h1, by rw [get_missing_add_missing_ne hne]; exact h2, h3, h4⟩

lemma noRel_processUrl {p f : PathT} {g : ReferenceGraph} (url : String)
    (hne : p ≠ f) (hg : noRelationsFrom g f) :
    noRelationsFrom (processUrl g p url) f := by
  obtain ⟨h1, h2, h3, h4⟩ := hg
  unfold processUrl
  dsimp only
  have hr : (g.add_remote p url).get_remote f = g.get_remote f :=
    get_remote_add_remote_ne hne
  split
  · exact ⟨h1, h2,
      by
        rw [show ((g.add_remote p url).add_template p url).get_remote f =
          (g.add_remote p url).get_remote f from rfl, hr]
        exact h3,
      by rw [get_templates_add_template_ne hne]; exact h4⟩
  · exact ⟨h1, h2, by rw [hr]; exact h3, h4⟩

lemma noRel_buildStep {fs : FS} {r f : PathT} {g : ReferenceGraph}
    (e : ScanEntry) (he : e.path = f → e.data = none)
    (hg : noRelationsFrom g f) : noRelationsFrom (buildStep fs r g e) f := by
  unfold buildStep
  cases hd : e.data with
  | none => exact hg
  | some data =>
    have hne : e.path ≠ f := by
      intro hpf
      rw [he hpf] at hd
      cases hd
    dsimp only
    have h2 : ∀ (cands : List String) (g' : ReferenceGraph), noRelationsFrom g' f →
        noRelationsFrom (cands.foldl (processCandidate fs r e.path) g') f := by
      intro cands
      induction cands with
      | nil => exact fun g' hg' => hg'
      | cons cand rest ih =>
        exact fun g' hg' => ih _ (noRel_processCandidate cand hne hg')
    have h3 : ∀ (urls : List String) (g' : ReferenceGraph), noRelationsFrom g' f →
        noRelationsFrom (urls.foldl (fun g' url => processUrl g' e.path url) g') f := by
      intro urls
      induction urls with
      | nil => exact fun g' hg' => hg'
      | cons url rest ih =>
        exact fun g' hg' => ih _ (noRel_processUrl url hne hg')
    exact h3 _ _ (h2 _ _ hg)

lemma noRel_foldl_buildStep {fs : FS} {r f : PathT} :
    ∀ (files : List ScanEntry) (g : ReferenceGraph),
      (∀ d, ScanEntry.mk f d ∈ files → d = none) → noRelationsFrom g f →
      noRelationsFrom (files.foldl (buildStep fs r) g) f := by
  intro files
  induction files with
  | nil => exact fun g _ hg => hg
  | cons e rest ih =>
    intro g hall hg
    refine ih _ (fun d hd => hall d (List.mem_cons_of_mem _ hd)) ?_
    refine noRel_buildStep e (fun hpf => ?_) hg
    exact hall e.data (by rw [← hpf]; exact List.mem_cons_self ..)

/-- **C7.** A file whose decode fails contributes exactly its node and
nothing else: the build step for a failed entry is `add_node` alone, the
failed file is always a node of the final graph, the scan continues over
the remaining files unchanged, and if every entry for that file failed
to decode, the final graph holds no edge or missing/remote/template
relation sourced at it. -/
theorem build_graph_decode_failure_recovery :
    (∀ (fs : FS) (r : PathT) (g : ReferenceGraph) (f : PathT),
        buildStep fs r g ⟨f, none⟩ = g.add_node f) ∧
      (∀ (fs : FS) (root : PathT) (files : List ScanEntry) (f : PathT),
        ScanEntry.mk f none ∈ files → f ∈ (build_graph fs root files).nodes) ∧
      ∀ (fs : FS) (root : PathT) (files : List ScanEntry) (f : PathT),
        (∀ d, ScanEntry.mk f d ∈ files → d = none) →
        noRelationsFrom (build_graph fs root files) f := by
  refine ⟨fun fs r g f => rfl, ?_, ?_⟩
  · intro fs root files f hmem
    exact mem_nodes_foldl_buildStep files ReferenceGraph.empty (Or.inl hmem)
  · intro fs root files f hall
    exact noRel_foldl_buildStep files ReferenceGraph.empty hall
      ⟨rfl, rfl, rfl, rfl⟩

/-- Witness for `build_graph_decode_failure_recovery`: a scan in which
`/r/bad.yaml` fails to decode while `/r/a.json` decodes to a scalar
document leaves `bad.yaml` as a bare node with no outgoing relations. -/
theorem build_graph_decode_failure_recovery_witness :
    ["r", "bad.yaml"] ∈
        (build_graph ⟨[["r", "a.json"]]⟩ ["r"]
          [⟨["r", "bad.yaml"], none⟩, ⟨["r", "a.json"], some .other⟩]).nodes ∧
      noRelationsFrom
        (build_graph ⟨[["r", "a.json"]]⟩ ["r"]
          [⟨["r", "bad.yaml"], none⟩, ⟨["r", "a.json"], some .other⟩])
        ["r", "bad.yaml"] :=
  ⟨build_graph_decode_failure_recovery.2.1 ⟨[["r", "a.json"]]⟩ ["r"]
      [⟨["r", "bad.yaml"], none⟩, ⟨["r", "a.json"], some .other⟩]
      ["r", "bad.yaml"] (List.mem_cons_self ..),
    build_graph_decode_failure_recovery.2.2 ⟨[["r", "a.json"]]⟩ ["r"]
      [⟨["r", "bad.yaml"], none⟩, ⟨["r", "a.json"], some .other⟩]
      ["r", "bad.yaml"]
      (by
        intro d hd
        rcases List.mem_cons.1 hd with h | hd2
        · injection h with h1 h2
        · rcases List.mem_cons.1 hd2 with h | h3
          · injection h with h1 h2
            exact absurd h1 (by decide)
          · simp at h3)⟩

/-! ## exporters/ascii_exporter.py: the cycle-aware tree renderer -/

/-- `_get_display_path`: relative to `base` if contained, else relative
to `root` if contained, else the absolute path string. -/
def joinRel (p : List String) : String :=
  match p with
  | [] => "."
  | _ => String.mk ((p.map String.data).intersperse ['/']).flatten

/-- `_get_display_path` (ascii_exporter.py). -/
def getDisplayPath (node base root : PathT) : String :=
  if isWithin node base then joinRel ((canon node).drop (canon base).length)
  else if isWithin node root then joinRel ((canon node).drop (canon root).length)
  else pathStr node

/-- Render the missing/remote/template lines that follow a node's
children: every line but the last uses the mid-branch connector. -/
def relLines (branchS lastS : String) (pre : String) :
    List (String × String) → List String
  | [] => []
  | [x] => [pre ++ lastS ++ x.1 ++ x.2]
  | x :: y :: rest =>
    (pre ++ branchS ++ x.1 ++ x.2) :: relLines branchS lastS pre (y :: rest)

/-- The keys of the adjacency dict. -/
def edgeKeys (g : ReferenceGraph) : List PathT := g.edges.map Prod.fst

/-- Is this edge source absent from the current ancestor path? -/
def notOnPath (k : PathT) (v : List PathT) : Bool := decide (k ∉ v)

/-- Termination measure of the renderer: edge sources not yet on the
current ancestor path. -/
def renderMeasure (g : ReferenceGraph) (visited : List PathT) : ℕ :=
  ((edgeKeys g).filter (fun k => notOnPath k visited)).length

lemma assocFind_some_mem_keys [DecidableEq α] {m : List (PathT × List α)}
    {k : PathT} {vs : List α} (h : assocFind m k = some vs) :
    k ∈ m.map Prod.fst := by
  induction m with
  | nil => simp [assocFind] at h
  | cons hd rest ih =>
    obtain ⟨k', vs'⟩ := hd
    simp only [assocFind] at h
    split at h
    · rename_i hk
      simp [hk]
    · simp only [List.map_cons, List.mem_cons]
      exact Or.inr (ih h)

lemma mem_edgeKeys_of_targets_ne {g : ReferenceGraph} {node : PathT}
    (h : g.get_targets node ≠ []) : node ∈ edgeKeys g := by
  unfold ReferenceGraph.get_targets at h
  cases hf : assocFind g.edges node with
  | none => rw [hf] at h; simp at h
  | some vs => exact assocFind_some_mem_keys hf

lemma length_filter_notMem_cons_lt {l : List PathT} {a : PathT}
    {v : List PathT} (ha : a ∈ l) (hav : a ∉ v) :
    (l.filter (fun k => notOnPath k (a :: v))).length <
      (l.filter (fun k => notOnPath k v)).length := by
  induction l with
  | nil => simp at ha
  | cons b bs ih =>
    by_cases hab : b = a
    · subst hab
      have hpass : notOnPath b v = true := by
        simp [notOnPath, hav]
      have hfail : notOnPath b (b :: v) = false := by
        simp [notOnPath]
      simp only [List.filter_cons, hpass, hfail, Bool.false_eq_true, if_true,
        if_false, List.length_cons]
      have hmono : (bs.filter (fun k => notOnPath k (b :: v))).length ≤
          (bs.filter (fun k => notOnPath k v)).length := by
        apply List.Sublist.length_le
        apply List.monotone_filter_right
        intro x hx
        simp only [notOnPath, decide_eq_true_eq, List.mem_cons, not_or] at hx ⊢
        exact hx.2
      omega
    · have hba : a ∈ bs := by
        rcases List.mem_cons.1 ha with h | h
        · exact absurd h.symm hab
        · exact h
      have hsame : notOnPath b (a :: v) = notOnPath b v := by
        simp only [notOnPath, List.mem_cons, not_or, decide_eq_decide]
        constructor
        · exact fun h => h.2
        · exact fun h => ⟨fun hb => hab hb, h⟩
      simp only [List.filter_cons, hsame]
      cases hbv : notOnPath b v with
      | true =>
        simp only [hbv, if_true, List.length_cons]
        exact Nat.succ_lt_succ (ih hba)
      | false =>
        simp only [hbv, Bool.false_eq_true, if_false]
        exact ih hba

lemma renderMeasure_lt {g : ReferenceGraph} {visited : List PathT} {node : PathT}
    (hmem : node ∈ edgeKeys g) (hnv : node ∉ visited) :
    renderMeasure g (node :: visited) < renderMeasure g visited := by
  unfold renderMeasure
  exact length_filter_notMem_cons_lt hmem hnv

lemma sortTargets_nil : sortTargets [] = [] := rfl

mutual
/-- `_render_node` (ascii_exporter.py): emit the node's line (with the
`" [*]"` cycle marker and no recursion when the node is already on the
current ancestor path), then its sorted resolved children, then its
missing, remote and template reference lines. `chars` is
`(branch, last, vertical, space)`. -/
def renderNode (g : ReferenceGraph) (base root : PathT)
    (chars : String × String × String × String) (visited : List PathT)
    (node : PathT) (pre : String) (isLast isRoot : Bool)
    (incM incR incT : Bool) : List String :=
  let display := getDisplayPath node base root
  if hv : node ∈ visited then
    [if isRoot then display ++ " [*]"
     else pre ++ (if isLast then chars.2.1 else chars.1) ++ display ++ " [*]"]
  else
    let line := if isRoot then display
                else pre ++ (if isLast then chars.2.1 else chars.1) ++ display
    let missing_refs := if incM then sortStrs (g.get_missing node) else []
    let remote_refs := if incR then sortStrs (g.get_remote node) else []
    let template_refs := if incT then sortStrs (g.get_templates node) else []
    let newPre := if isRoot then ""
                  else pre ++ (if isLast then chars.2.2.2 else chars.2.2.1)
    let rels := missing_refs.map (fun s => (s, " [MISSING]")) ++
      remote_refs.map (fun s => (s, " [REMOTE]")) ++
      template_refs.map (fun s => (s, " [TEMPLATE]"))
    let children := sortTargets (g.get_targets node)
    if hch : children = [] then line :: relLines chars.1 chars.2.1 newPre rels
    else
      line :: (renderChildren g base root chars (node :: visited) children newPre
        rels.isEmpty incM incR incT ++ relLines chars.1 chars.2.1 newPre rels)
termination_by (renderMeasure g visited, 0)
decreasing_by
  apply Prod.Lex.left
  apply renderMeasure_lt ?_ hv
  apply mem_edgeKeys_of_targets_ne
  intro h0
  exact hch (by rw [show children = sortTargets (g.get_targets node) from rfl,
    h0, sortTargets_nil])

/-- The child loop of `_render_node`: each child is rendered with the
parent pushed onto the ancestor path; a child is "last" when no sibling
and no relation line follows it. -/
def renderChildren (g : ReferenceGraph) (base root : PathT)
    (chars : String × String × String × String) (visited : List PathT)
    (items : List PathT) (pre : String) (relsEmpty : Bool)
    (incM incR incT : Bool) : List String :=
  match items with
  | [] => []
  | c :: rest =>
    renderNode g base root chars visited c pre (rest.isEmpty && relsEmpty) false
        incM incR incT ++
      renderChildren g base root chars visited rest pre relsEmpty incM incR incT
termination_by (renderMeasure g visited, items.length + 1)
decreasing_by
  · apply Prod.Lex.right
    omega
  · apply Prod.Lex.right
    simp only [List.length_cons]
    omega
end

lemma empty_append_str (s : String) : "" ++ s = s := by
  cases s
  rfl

lemma render_cycle_stop (g : ReferenceGraph) (base root : PathT)
    (chars : String × String × String × String) (visited : List PathT)
    (node : PathT) (pre : String) (isLast isRoot incM incR incT : Bool)
    (hv : node ∈ visited) :
    renderNode g base root chars visited node pre isLast isRoot incM incR incT =
      [if isRoot then getDisplayPath node base root ++ " [*]"
       else pre ++ (if isLast then chars.2.1 else chars.1) ++
         getDisplayPath node base root ++ " [*]"] := by
  rw [renderNode]
  rw [dif_pos hv]

lemma render_two_cycle (g : ReferenceGraph) (base root : PathT)
    (branchS lastS verticalS spaceS : String) (a b : PathT)
    (incM incR incT : Bool) (hab : a ≠ b)
    (hta : g.get_targets a = [b]) (htb : g.get_targets b = [a])
    (hma : g.get_missing a = []) (hra : g.get_remote a = [])
    (hpa : g.get_templates a = [])
    (hmb : g.get_missing b = []) (hrb : g.get_remote b = [])
    (hpb : g.get_templates b = []) :
    renderNode g base root (branchS, lastS, verticalS, spaceS) [] a "" true true
        incM incR incT =
      [getDisplayPath a base root,
       lastS ++ getDisplayPath b base root,
       spaceS ++ lastS ++ getDisplayPath a base root ++ " [*]"] := by
  rw [renderNode]
  rw [dif_neg (by simp)]
  simp only [hta, hma, hra, hpa, ite_self, List.map_nil, List.append_nil,
    List.nil_append, List.isEmpty_nil, sortTargets, sortStrs, sortLe, List.foldr,
    insertLe, relLines, if_true]
  rw [dif_neg (List.cons_ne_nil b [])]
  rw [renderChildren.eq_def]
  dsimp only
  rw [renderNode]
  rw [dif_neg (by simp [Ne.symm hab])]
  simp only [htb, hmb, hrb, hpb, ite_self, List.map_nil, List.append_nil,
    List.nil_append, List.isEmpty_nil, sortTargets, sortStrs, sortLe, List.foldr,
    insertLe, relLines, Bool.and_self, if_false, Bool.true_and]
  rw [dif_neg (List.cons_ne_nil a [])]
  rw [renderChildren.eq_def]
  dsimp only
  rw [render_cycle_stop _ _ _ _ _ _ _ _ _ _ _ _ (by simp : a ∈ [b, a])]
  simp [empty_append_str, sortStrs, sortLe, relLines, renderChildren.eq_def]

lemma render_sibling_reexpand (g : ReferenceGraph) (base root : PathT)
    (branchS lastS verticalS spaceS : String) (r a c d : PathT)
    (incM incR incT : Bool)
    (har : a ≠ r) (hcr : c ≠ r) (hda : d ≠ a) (hdc : d ≠ c) (hdr : d ≠ r)
    (hac : pathLe a c = true)
    (htr : g.get_targets r = [a, c]) (hta : g.get_targets a = [d])
    (htc : g.get_targets c = [d]) (htd : g.get_targets d = [])
    (hmr : g.get_missing r = []) (hrr : g.get_remote r = [])
    (hpr : g.get_templates r = [])
    (hma : g.get_missing a = []) (hra : g.get_remote a = [])
    (hpa : g.get_templates a = [])
    (hmc : g.get_missing c = []) (hrc : g.get_remote c = [])
    (hpc : g.get_templates c = [])
    (hmd : g.get_missing d = []) (hrd : g.get_remote d = [])
    (hpd : g.get_templates d = []) :
    renderNode g base root (branchS, lastS, verticalS, spaceS) [] r "" true true
        incM incR incT =
      [getDisplayPath r base root,
       branchS ++ getDisplayPath a base root,
       verticalS ++ lastS ++ getDisplayPath d base root,
       lastS ++ getDisplayPath c base root,
       spaceS ++ lastS ++ getDisplayPath d base root] := by
  simp [renderNode, renderChildren, htr, hta, htc, htd, hmr, hrr, hpr,
    hma, hra, hpa, hmc, hrc, hpc, hmd, hrd, hpd, har, hcr, hda, hdc, hdr, hac,
    sortTargets, sortStrs, sortLe, insertLe, relLines, empty_append_str]

/-- **C9.** The renderer's cycle handling (the renderer is a total
function, so no traversal recurses forever). (1) A node already on the
current root-to-leaf ancestor path is printed as a single line carrying
the `" [*]"` cycle marker and its children are not re-expanded.
(2) Rendering a 2-cycle `a → b`, `b → a` from root `a` produces exactly
three lines — `a`, then `b`, then `a` again with the cycle marker — so
exactly one node of the traversal path is marked. (3) A node reached
again on a sibling branch (`r → a → d`, `r → c → d`) is expanded
normally both times, with no marker. -/
theorem renderer_cycle_handling :
    (∀ (g : ReferenceGraph) (base root : PathT)
        (chars : String × String × String × String) (visited : List PathT)
        (node : PathT) (pre : String) (isLast isRoot incM incR incT : Bool),
      node ∈ visited →
      renderNode g base root chars visited node pre isLast isRoot incM incR incT =
        [if isRoot then getDisplayPath node base root ++ " [*]"
         else pre ++ (if isLast then chars.2.1 else chars.1) ++
           getDisplayPath node base root ++ " [*]"]) ∧
      (∀ (g : ReferenceGraph) (base root : PathT)
          (branchS lastS verticalS spaceS : String) (a b : PathT)
          (incM incR incT : Bool), a ≠ b →
        g.get_targets a = [b] → g.get_targets b = [a] →
        g.get_missing a = [] → g.get_remote a = [] → g.get_templates a = [] →
        g.get_missing b = [] → g.get_remote b = [] → g.get_templates b = [] →
        renderNode g base root (branchS, lastS, verticalS, spaceS) [] a "" true
            true incM incR incT =
          [getDisplayPath a base root,
           lastS ++ getDisplayPath b base root,
           spaceS ++ lastS ++ getDisplayPath a base root ++ " [*]"]) ∧
      ∀ (g : ReferenceGraph) (base root : PathT)
          (branchS lastS verticalS spaceS : String) (r a c d : PathT)
          (incM incR incT : Bool),
        a ≠ r → c ≠ r → d ≠ a → d ≠ c → d ≠ r → pathLe a c = true →
        g.get_targets r = [a, c] → g.get_targets a = [d] →
        g.get_targets c = [d] → g.get_targets d = [] →
        g.get_missing r = [] → g.get_remote r = [] → g.get_templates r = [] →
        g.get_missing a = [] → g.get_remote a = [] → g.get_templates a = [] →
        g.get_missing c = [] → g.get_remote c = [] → g.get_templates c = [] →
        g.get_missing d = [] → g.get_remote d = [] → g.get_templates d = [] →
        renderNode g base root (branchS, lastS, verticalS, spaceS) [] r "" true
            true incM incR incT =
          [getDisplayPath r base root,
           branchS ++ getDisplayPath a base root,
           verticalS ++ lastS ++ getDisplayPath d base root,
           lastS ++ getDisplayPath c base root,
           spaceS ++ lastS ++ getDisplayPath d base root] :=
  ⟨fun g base root chars visited node pre isLast isRoot incM incR incT hv =>
      render_cycle_stop g base root chars visited node pre isLast isRoot
        incM incR incT hv,
    fun g base root bS lS vS sS a b incM incR incT hab hta htb hma hra hpa
        hmb hrb hpb =>
      render_two_cycle g base root bS lS vS sS a b incM incR incT hab hta htb
        hma hra hpa hmb hrb hpb,
    fun g base root bS lS vS sS r a c d incM incR incT har hcr hda hdc hdr hac
        htr hta htc htd hmr hrr hpr hma hra hpa hmc hrc hpc hmd hrd hpd =>
      render_sibling_reexpand g base root bS lS vS sS r a c d incM incR incT
        har hcr hda hdc hdr hac htr hta htc htd hmr hrr hpr hma hra hpa hmc
        hrc hpc hmd hrd hpd⟩

/-- Witness for `renderer_cycle_handling`: concrete renders of the
2-cycle `/a ↔ /b` and of the diamond `/r → /a → /d`, `/r → /c → /d`,
plus a revisit of `/a` with `/a` already on the ancestor path. -/
theorem renderer_cycle_handling_witness :
    renderNode (buildOps [GraphOp.addEdge ["a"] ["b"], GraphOp.addEdge ["b"] ["a"]])
        [] [] ("├── ", "└── ", "│   ", "    ") [["a"]] ["a"] "" true false
        false false false =
      ["" ++ (if true then "└── " else "├── ") ++ getDisplayPath ["a"] [] [] ++ " [*]"] ∧
      renderNode (buildOps [GraphOp.addEdge ["a"] ["b"], GraphOp.addEdge ["b"] ["a"]])
          [] [] ("├── ", "└── ", "│   ", "    ") [] ["a"] "" true true
          false false false =
        [getDisplayPath ["a"] [] [],
         "└── " ++ getDisplayPath ["b"] [] [],
         "    " ++ "└── " ++ getDisplayPath ["a"] [] [] ++ " [*]"] ∧
      renderNode (buildOps [GraphOp.addEdge ["r"] ["a"], GraphOp.addEdge ["r"] ["c"],
            GraphOp.addEdge ["a"] ["d"], GraphOp.addEdge ["c"] ["d"]])
          [] [] ("├── ", "└── ", "│   ", "    ") [] ["r"] "" true true
          false false false =
        [getDisplayPath ["r"] [] [],
         "├── " ++ getDisplayPath ["a"] [] [],
         "│   " ++ "└── " ++ getDisplayPath ["d"] [] [],
         "└── " ++ getDisplayPath ["c"] [] [],
         "    " ++ "└── " ++ getDisplayPath ["d"] [] []] :=
  ⟨renderer_cycle_handling.1
      (buildOps [GraphOp.addEdge ["a"] ["b"], GraphOp.addEdge ["b"] ["a"]])
      [] [] ("├── ", "└── ", "│   ", "    ") [["a"]] ["a"] "" true false
      false false false (by decide),
    renderer_cycle_handling.2.1
      (buildOps [GraphOp.addEdge ["a"] ["b"], GraphOp.addEdge ["b"] ["a"]])
      [] [] "├── " "└── " "│   " "    " ["a"] ["b"] false false false
      (by decide) (by decide) (by decide) (by decide) (by decide) (by decide)
      (by decide) (by decide) (by decide),
    renderer_cycle_handling.2.2
      (buildOps [GraphOp.addEdge ["r"] ["a"], GraphOp.addEdge ["r"] ["c"],
        GraphOp.addEdge ["a"] ["d"], GraphOp.addEdge ["c"] ["d"]])
      [] [] "├── " "└── " "│   " "    " ["r"] ["a"] ["c"] ["d"] false false false
      (by decide) (by decide) (by decide) (by decide) (by decide) (by decide)
      (by decide) (by decide) (by decide) (by decide) (by decide) (by decide)
      (by decide) (by decide) (by decide) (by decide) (by decide) (by decide)
      (by decide) (by decide) (by decide) (by decide)⟩
